import Mathlib

/-!
# Verification of the `preprocessor` expansion engine

Shallow embedding of the parts of `Lesbre/preprocessor` relevant to the
claims under examination.  Source files embedded:

* `src/preprocessor/blocks.py` — block handlers (`repeat`, `for`, `cut`,
  `atlabel`, `if`/`elif`/`else`, `find_elifs_and_else`, `fnl_atlabel`);
* `preproc/__main__.py` — command-line option processing
  (`process_options`, recursion-depth validation).

The recursive interpreter (`preprocessor.py`: `parse`, `_find_tokens`,
`replace_string`), the condition evaluator (`conditions.py`) and string
helpers (`defs.py`) are not part of the excerpt; where a claim depends on
them they are either taken as parameters of the embedded handlers
(mirroring the fact that the handlers call back into the `Preprocessor`
object) or modelled from the specification, as flagged in the doc
comments below.

Python strings are modelled as Lean `String`s restricted to the ASCII
fragment (`str.isnumeric` becomes "non-empty and all decimal digits",
`str.strip` becomes `pyStrip` below); Python dicts keyed by strings
become association lists with last-write-wins insertion.
-/

namespace Preproc

/-- Python dict-style association list update: `d[k] = v` replaces the
binding of `k` when present (insertion order of other keys preserved),
appends it otherwise. -/
def dictSet {α : Type} : List (String × α) → String → α → List (String × α)
  | [], k, v => [(k, v)]
  | (k', v') :: rest, k, v =>
    if k' = k then (k, v) :: rest else (k', v') :: dictSet rest k v

/-- Python dict lookup `d.get(k)`. -/
def dictGet {α : Type} : List (String × α) → String → Option α
  | [], _ => none
  | (k', v') :: rest, k => if k' = k then some v' else dictGet rest k

/-- Python `str.strip()` restricted to ASCII: drop whitespace from both
ends. -/
def pyStrip (s : String) : String :=
  ⟨((s.data.dropWhile Char.isWhitespace).reverse.dropWhile
      Char.isWhitespace).reverse⟩

/-- Python `str.isnumeric` restricted to ASCII: non-empty and every
character a decimal digit.  (`blocks.py` uses it to validate the
`repeat` argument; a leading `-` sign fails the check.) -/
def pyIsNumeric (s : String) : Bool :=
  !s.data.isEmpty && s.data.all Char.isDigit

/-- Python `int(s)` on a string of decimal digits. -/
def pyToNat (s : String) : Nat :=
  s.data.foldl (fun acc c => acc * 10 + (c.toNat - 48)) 0

/-- Whether the string starts with `-` (argparse's option-vs-positional
test, on the character list to stay kernel-computable). -/
def startsWithDash (s : String) : Bool :=
  match s.data with
  | Char.ofNat 45 :: _ => true
  | _ => false

/-- Python string repetition `s * n` (`n` copies concatenated). -/
def pyStrMul (s : String) (n : Nat) : String :=
  String.join (List.replicate n s)

-- ============================================================
-- repeat block (blocks.py, blck_repeat)
-- ============================================================

/-- Error message used by `blck_repeat` for both the non-numeric and the
non-positive argument cases. -/
def repeatErrMsg : String := "invalid argument. Usage: repeat [uint > 0]"

/-- Embedding of `blck_repeat` (`blocks.py`).  `parse` stands for the
bound method `p.parse`; `p.send_error` aborts the run and is modelled by
`Except.error`.  The body is parsed once and the single rendered result
is repeated `nb` times (`contents * nb`). -/
def blck_repeat (parse : String → String) (args contents : String) :
    Except String String :=
  let a := pyStrip args
  if pyIsNumeric a then
    let nb := pyToNat a
    if nb ≤ 0 then .error repeatErrMsg
    else .ok (pyStrMul (parse contents) nb)
  else .error repeatErrMsg

-- ============================================================
-- atlabel block (blocks.py, blck_atlabel / fnl_atlabel)
-- ============================================================

/-- The `atlabel` namespace of `command_vars`: a dict from label name to
rendered content.  An absent `"atlabel"` key is modelled by the empty
list (the handler creates the dict on first use). -/
abbrev AtlabelStore := List (String × String)

/-- Embedding of `blck_atlabel` (`blocks.py`).  Checks for an empty
label, then for a duplicate label (fatal), then renders the body via the
nested `parse` and stores the rendered content; returns empty text. -/
def blck_atlabel (parse : String → String) (store : AtlabelStore)
    (args contents : String) : Except String (AtlabelStore × String) :=
  let lbl := pyStrip args
  if lbl = "" then .error "empty label name"
  else if (dictGet store lbl).isSome then
    .error ("Multiple atlabel blocks with same label \"" ++ lbl ++ "\"")
  else .ok (dictSet store lbl (parse contents), "")

/-- Warning message emitted by `fnl_atlabel` for a label with no
occurrences. -/
def noMatchingLabelMsg (lbl : String) : String :=
  "No matching label for atlabel block \"" ++ lbl ++ "\""

/-- Loop body of `fnl_atlabel` (`blocks.py`): for each stored entry, look
up its recorded label occurrences; zero occurrences emit one warning
(`send_warning`, collected as data — the non-fatal path), otherwise the
stored content is spliced in at each occurrence via
`pre.replace_string` (a `Preprocessor` method outside the excerpt,
abstracted as the `replace` parameter).  Returns the rewritten string
and the warnings in order. -/
def fnl_atlabel_loop (replace : Nat → Nat → String → String → String)
    (getLabel : String → List Nat) :
    AtlabelStore → String → String × List String
  | [], s => (s, [])
  | (lbl, content) :: rest, s =>
    let occ := getLabel lbl
    let warns := if occ.length = 0 then [noMatchingLabelMsg lbl] else []
    let s' := occ.foldl (fun acc idx => replace idx idx acc content) s
    let r := fnl_atlabel_loop replace getLabel rest s'
    (r.1, warns ++ r.2)

/-- Embedding of `fnl_atlabel` (`blocks.py`).  Every processed entry is
recorded in `deletions` and removed afterwards, so the returned store is
always empty. -/
def fnl_atlabel (replace : Nat → Nat → String → String → String)
    (getLabel : String → List Nat) (store : AtlabelStore) (s : String) :
    AtlabelStore × String × List String :=
  let r := fnl_atlabel_loop replace getLabel store s
  ([], r.1, r.2)

-- ============================================================
-- cut block (blocks.py, blck_cut)
-- ============================================================

/-- Model of a context frame as produced by `pre.context.top.copy(pos,
"in pasted block")`: the copied frame keeps the source of the frame it
was copied from and takes the given base offset and description. -/
structure Ctx where
  src : String
  base : Nat
  desc : String
deriving DecidableEq, Repr

/-- `Frame.copy(pos, desc)` from the context stack (§4.3): non-mutating
snapshot with a new base offset and description. -/
def ctxCopy (top : Ctx) (pos : Nat) (desc : String) : Ctx :=
  { src := top.src, base := pos, desc := desc }

/-- Embedding of the `cut_parser` argparse declaration (`blocks.py`):
flags `--pre-render`/`-p`, plus one optional positional `clipboard`
defaulting to `""`.  A second positional or an unrecognised option is an
`argparse.ArgumentError`.  Returns `(pre_render, clipboard)`. -/
def cut_parse_args : List String → Bool → Option String →
    Except Unit (Bool × String)
  | [], flag, clip => .ok (flag, clip.getD "")
  | arg :: rest, flag, clip =>
    if arg = "--pre-render" || arg = "-p" then cut_parse_args rest true clip
    else if startsWithDash arg && arg ≠ "-" then .error ()
    else match clip with
      | none => cut_parse_args rest flag (some arg)
      | some _ => .error ()

/-- The `"clipboard"` namespace of `command_vars`: clipboard name to
`(context, contents)`. -/
abbrev ClipStore := List (String × (Ctx × String))

/-- Embedding of `blck_cut` (`blocks.py`).  `split_args` and `parse`
stand for the corresponding `Preprocessor` methods; `top` is
`pre.context.top` and `pos` is `pre.current_position.end`.  Stores
`(context, contents)` (contents pre-rendered when the flag is given)
under the clipboard name — a plain dict assignment, overwriting any
previous entry — and returns empty text. -/
def blck_cut (split_args : String → List String) (parse : String → String)
    (top : Ctx) (pos : Nat) (store : ClipStore) (args contents : String) :
    Except String (ClipStore × String) :=
  match cut_parse_args (split_args args) false none with
  | .error _ =>
    .error "invalid argument.\nusage: cut [--pre-render|-p] [<clipboard_name>]"
  | .ok (preRender, clipboard) =>
    let context := ctxCopy top pos "in pasted block"
    let contents := if preRender then parse contents else contents
    .ok (dictSet store clipboard (context, contents), "")

-- ============================================================
-- for block (blocks.py, blck_for)
-- ============================================================

/-- Length of a Python `range(start, stop, step)` (`step ≠ 0`; the
`step = 0` case raises `ValueError` in Python and is not reached by the
claims, modelled as an empty range). -/
def pyRangeLen (start stop step : Int) : Nat :=
  if 0 < step then ((stop - start + step - 1) / step).toNat
  else if step < 0 then ((start - stop - step - 1) / (-step)).toNat
  else 0

/-- Python `range(start, stop, step)` as a list of values. -/
def pyRange (start stop step : Int) : List Int :=
  (List.range (pyRangeLen start stop step)).map (fun i => start + step * i)

/-- The command registry fragment relevant to `for`: identifiers mapped
to the string the defined command returns (`blck_for` installs a closure
returning `str(value)`; only such value-commands are modelled). -/
abbrev Commands := List (String × String)

/-- Embedding of the iteration loop of `blck_for` (`blocks.py`): for
each value in order, `pre.commands[ident]` is set to a command returning
the value, the body is re-parsed (via `parse`, which may itself read and
update the registry), and the results are concatenated.  Returns the
final registry and the accumulated result. -/
def blck_for_loop (parse : Commands → String → Commands × String)
    (ident contents : String) : List String → Commands → Commands × String
  | [], cs => (cs, "")
  | v :: vs, cs =>
    let pr := parse (dictSet cs ident v) contents
    let r := blck_for_loop parse ident contents vs pr.1
    (r.1, pr.2 ++ r.2)

/-- `blck_for` applied to a `range(...)` iteration source: the loop runs
over `str(value)` for each range value. -/
def blck_for_range (parse : Commands → String → Commands × String)
    (ident contents : String) (start stop step : Int) (cs : Commands) :
    Commands × String :=
  blck_for_loop parse ident contents ((pyRange start stop step).map toString) cs

-- ============================================================
-- command line options (preproc/__main__.py, process_options)
-- ============================================================

/-- Embedding of the recursion-depth section of `process_options`
(`__main__.py`): absent option keeps the preprocessor's default;
a value below `-1` is a CLI error (`parser.error` aborts); otherwise the
configured value (possibly `-1`, meaning unlimited) is installed. -/
def processRecursionDepth (arg : Option Int) (default : Int) :
    Except String Int :=
  match arg with
  | none => .ok default
  | some recDepth =>
    if recDepth < -1 then
      .error "argument --recusion-depth/-r: number must be greater than -1"
    else .ok recDepth

-- ============================================================
-- recursion guard (spec §4.5.9; preprocessor.py not in the excerpt)
-- ============================================================

/-- Modelled from the spec: the recursion-depth check of
`preprocessor.py` (not part of the excerpt).  "A process-wide recursion
counter increments on every nested `parse` call ...; exceeding the
configured maximum depth ... is a fatal error"; "a configured value of
-1 disables the check". -/
def recursionExceeded (maxDepth : Int) (counter : Nat) : Bool :=
  decide (maxDepth ≠ -1 ∧ maxDepth < (counter : Int))

/-- Modelled from the spec: expansion of a command defined to expand
into a directive that invokes itself, under a configured maximum
recursion depth `d ≥ 0`.  Each nested `parse` call increments the
counter and first runs the depth check; the self-invoking expansion
otherwise only produces the next nested call.  Totality of this
definition (well-founded on the remaining headroom) is the formal
counterpart of "never looping unboundedly or overflowing the stack". -/
def selfRecParse (d : Nat) (counter : Nat) : Except String String :=
  if h : recursionExceeded (d : Int) counter then
    .error "maximum recursion depth exceeded"
  else
    selfRecParse d (counter + 1)
termination_by d + 1 - counter
decreasing_by
  simp only [recursionExceeded, decide_eq_true_eq, not_and, not_lt] at h
  have hd : (d : Int) ≠ -1 := by omega
  have := h hd
  omega

-- ============================================================
-- token scanning and literal text (spec §4.1/§4.5; preprocessor.py
-- not in the excerpt)
-- ============================================================

/-- Modelled from the spec: input symbols as seen by the token scanner
(`preprocessor.py._find_tokens`, not part of the excerpt).  `beg`/`fin`
are occurrences of the configured begin/end delimiter, `esc` the
configured escape marker, `chr` any other character. -/
inductive Sym where
  | chr (c : Char)
  | beg
  | fin
  | esc
deriving DecidableEq, Repr

/-- Modelled from the spec: escape-marker stripping (§4.1/§6) — "a
delimiter preceded by the escape marker is excluded and the marker is
stripped from final output"; an escape marker not preceding a delimiter
is ordinary text. -/
def stripEscape : List Sym → List Sym
  | .esc :: .beg :: rest => .beg :: stripEscape rest
  | .esc :: .fin :: rest => .fin :: stripEscape rest
  | s :: rest => s :: stripEscape rest
  | [] => []

/-- Modelled from the spec: the recursive interpreter `parse`
(`preprocessor.py`, not part of the excerpt), §4.5: literal text between
directives is copied unchanged after escape-marker stripping; an
unescaped begin delimiter starts directive handling (registry lookup,
boundary matching — abstracted as the `expand` parameter, which receives
the remaining input); an unmatched unescaped end delimiter is fatal. -/
def parseModel (expand : List Sym → Except String (List Sym)) :
    List Sym → Except String (List Sym)
  | [] => .ok []
  | .esc :: .beg :: rest => (parseModel expand rest).map (Sym.beg :: ·)
  | .esc :: .fin :: rest => (parseModel expand rest).map (Sym.fin :: ·)
  | .beg :: rest => expand (Sym.beg :: rest)
  | .fin :: _ => .error "unmatched end token"
  | s :: rest => (parseModel expand rest).map (s :: ·)

-- ============================================================
-- if block (blocks.py, find_elifs_and_else / blck_if)
-- ============================================================

/-- Classification of a token of `_find_tokens`' output, as
`find_elifs_and_else` (`blocks.py`) classifies it: `close` is a CLOSE
token; an OPEN token is classified by which regex matches the text
following it — `if_regex` (`openIf`), `endif_regex` (`openEndif`),
`else_regex` (`openElse`, carrying the match length `match_else.end()`),
`elif_regex` (`openElif`, carrying `match_elif.end(1)`), or none of
these (`openOther`).  The regexes are mutually exclusive on any given
text. -/
inductive TokClass where
  | close
  | openIf
  | openEndif
  | openElse (mlen : Nat)
  | openElif (mlen : Nat)
  | openOther
deriving DecidableEq, Repr

/-- A token `(begin, end, kind)` of `preproc._find_tokens(string)`, with
the OPEN-token regex classification attached (see `TokClass`).  `tb` is
the token's begin offset, `te` its end offset. -/
structure Tok where
  tb : Nat
  te : Nat
  cls : TokClass
deriving DecidableEq, Repr

/-- Whether the token is an OPEN token (`TokenMatch.OPEN`). -/
def TokClass.isOpen : TokClass → Bool
  | .close => false
  | _ => true

/-- Whether the OPEN token is an `elif`/`else` boundary candidate. -/
def TokClass.isBoundary : TokClass → Bool
  | .openElse _ => true
  | .openElif _ => true
  | _ => false

/-- Modelled from the spec: `find_matching_close_parenthese` from
`conditions.py` (not part of the excerpt): scan forward from the open
parenthesis at index `i`, tracking nesting, returning the index of the
matching close parenthesis — `j` counts the absolute index.  Returns the
list length when unmatched. -/
def findMatchingCloseAux : List Bool → Nat → Nat → Nat
  | [], j, _ => j
  | b :: rest, j, depth =>
    if b then findMatchingCloseAux rest (j + 1) (depth + 1)
    else if depth = 0 then j
    else findMatchingCloseAux rest (j + 1) (depth - 1)

/-- Modelled from the spec: see `findMatchingCloseAux`; the scan starts
after the open parenthesis at index `i`. -/
def findMatchingClose (ps : List Bool) (i : Nat) : Nat :=
  findMatchingCloseAux (ps.drop (i + 1)) (i + 1) 0

/-- Result of `find_elifs_and_else` (`blocks.py`): `(-1, -1, None)`
becomes `noneFound`; a matching `else` at `string[b:e]` becomes
`foundElse b e`; a matching `elif` becomes `foundElif b e argFrom argTo`
where the argument text is `string[argFrom:argTo]`; an `elif` whose own
open token has no matching close token triggers `send_error`
(`unmatchedError`). -/
inductive ElifElseResult where
  | noneFound
  | foundElse (b e : Nat)
  | foundElif (b e argFrom argTo : Nat)
  | unmatchedError
deriving DecidableEq, Repr

/-- The result `find_elifs_and_else` builds from the selected token at
index `i` of the token list (shared between the embedded loop and its
specification). -/
def boundaryResult (all : List Tok) (i : Nat) : ElifElseResult :=
  match all[i]? with
  | none => .noneFound
  | some t =>
    match t.cls with
    | .openElse m => .foundElse t.tb (t.te + m)
    | .openElif m =>
      let j := findMatchingClose (all.map (fun x => x.cls.isOpen)) i
      if j = all.length then .unmatchedError
      else
        match all[j]? with
        | some tj => .foundElif t.tb tj.te (t.te + m) tj.tb
        | none => .unmatchedError
    | _ => .noneFound

/-- Embedding of the token loop of `find_elifs_and_else` (`blocks.py`):
iterate over the tokens (absolute index `i`, current suffix `rest`),
incrementing `depth` on an OPEN token matching `if_regex`, decrementing
on `endif_regex`, and, only at `depth = 0`, selecting an `else`/`elif`
token.  CLOSE tokens and unclassified OPEN tokens are skipped. -/
def find_elifs_and_else_aux (all : List Tok) :
    List Tok → Nat → Int → ElifElseResult
  | [], _, _ => .noneFound
  | t :: rest, i, depth =>
    match t.cls with
    | .openIf => find_elifs_and_else_aux all rest (i + 1) (depth + 1)
    | .openEndif => find_elifs_and_else_aux all rest (i + 1) (depth - 1)
    | .openElse m =>
      if depth = 0 then .foundElse t.tb (t.te + m)
      else find_elifs_and_else_aux all rest (i + 1) depth
    | .openElif m =>
      if depth = 0 then
        let j := findMatchingClose (all.map (fun x => x.cls.isOpen)) i
        if j = all.length then .unmatchedError
        else
          match all[j]? with
          | some tj => .foundElif t.tb tj.te (t.te + m) tj.tb
          | none => .unmatchedError
      else find_elifs_and_else_aux all rest (i + 1) depth
    | _ => find_elifs_and_else_aux all rest (i + 1) depth

/-- Embedding of `find_elifs_and_else` (`blocks.py`), over the token
list produced by `preproc._find_tokens(string)`. -/
def find_elifs_and_else (tokens : List Tok) : ElifElseResult :=
  find_elifs_and_else_aux tokens tokens 0 0

/-- Depth contribution of one token in the `find_elifs_and_else` scan. -/
def depthDelta : TokClass → Int
  | .openIf => 1
  | .openEndif => -1
  | _ => 0

/-- Nesting depth of the `if`/`endif` structure before token `i`: number
of `if` open tokens minus number of `endif` tokens among the first `i`
tokens. -/
def depthBefore (tokens : List Tok) (i : Nat) : Int :=
  ((tokens.take i).map (fun t => depthDelta t.cls)).sum

/-- Token `i` is an `elif`/`else` boundary occurring at nesting depth
zero. -/
def isZeroBoundary (tokens : List Tok) (i : Nat) : Bool :=
  (match tokens[i]? with
   | some t => t.cls.isBoundary
   | none => false) && depthBefore tokens i == 0

/-- Scan for the least index `j ≥ i` that is an `elif`/`else` boundary
at nesting depth zero; the suffix argument (`tokens.drop i`) drives the
recursion. -/
def fzbAux (tokens : List Tok) : List Tok → Nat → Option Nat
  | [], _ => none
  | _ :: rest, i =>
    if isZeroBoundary tokens i then some i else fzbAux tokens rest (i + 1)

/-- Specification-side reformulation: the least index `j ≥ i` that is an
`elif`/`else` boundary at nesting depth zero. -/
def firstZeroBoundaryFrom (tokens : List Tok) (i : Nat) : Option Nat :=
  fzbAux tokens (tokens.drop i) i

/-- Branch boundaries of an `if` block body, as successively returned by
`find_elifs_and_else`: an `else` token or an `elif` token with its raw
argument text. -/
inductive IfBoundary where
  | isElse
  | isElif (args : String)
deriving DecidableEq, Repr

/-- Embedding of the `while True` loop of `blck_if` (`blocks.py`).  The
block body is pre-segmented by the successive depth-zero boundaries
found by `find_elifs_and_else` (see the `find_elifs_and_else`
development): `body` is the text from the current position up to the
next boundary, `rest` the later (boundary, following-segment) pairs.
`cond` stands for `condition_eval`, `parse` for the nested
`preprocessor.parse`.  A true `value` parses and returns the current
segment; an exhausted boundary list yields `""`; an `else` flips `value`
(`value = not value`); an `elif` first parses its argument text, then
evaluates the condition on the parsed result. -/
def blck_if_loop (cond : String → Bool) (parse : String → String) :
    Bool → String → List (IfBoundary × String) → String
  | value, body, rest =>
    if value then parse body
    else
      match rest with
      | [] => ""
      | (.isElse, b) :: rest' => blck_if_loop cond parse (!value) b rest'
      | (.isElif a, b) :: rest' =>
        blck_if_loop cond parse (cond (parse a)) b rest'

/-- Embedding of `blck_if` (`blocks.py`): the leading condition is
evaluated on the raw argument text (`condition_eval(preprocessor,
args)`), then the branch loop runs. -/
def blck_if (cond : String → Bool) (parse : String → String)
    (args : String) (body : String) (rest : List (IfBoundary × String)) :
    String :=
  blck_if_loop cond parse (cond args) body rest

/-- Specification-side reformulation of the branch selection: the body
of the first branch whose condition is true, scanning left to right,
evaluating each `elif` condition on its parsed argument text; an `else`
always matches; `none` when no branch matches. -/
def firstTrueBranch (cond : String → Bool) (parse : String → String) :
    Bool → String → List (IfBoundary × String) → Option String
  | value, body, rest =>
    if value then some body
    else
      match rest with
      | [] => none
      | (.isElse, b) :: _ => some b
      | (.isElif a, b) :: rest' =>
        firstTrueBranch cond parse (cond (parse a)) b rest'

/-- Parse behaviour of the body `"{b}x{e},"` used in the `for` range
example: expanding the body looks up the loop-variable command `x` in
the registry and appends a comma; the registry is not modified. -/
def forExampleParse : Commands → String → Commands × String :=
  fun cs _ => (cs, (dictGet cs "x").getD "" ++ ",")

-- ============================================================
-- helper lemmas
-- ============================================================

theorem dictGet_dictSet_self {α : Type} (d : List (String × α)) (k : String) (v : α) :
    dictGet (dictSet d k v) k = some v := by
  induction d with
  | nil => simp [dictSet, dictGet]
  | cons hd tl ih =>
    obtain ⟨k', v'⟩ := hd
    by_cases h : k' = k <;> simp [dictSet, dictGet, h, ih]

theorem selfRecParse_eq_error (d counter : Nat) :
    selfRecParse d counter = .error "maximum recursion depth exceeded" := by
  by_cases h : recursionExceeded (d : Int) counter
  · rw [selfRecParse, dif_pos h]
  · rw [selfRecParse, dif_neg h]
    exact selfRecParse_eq_error d (counter + 1)
termination_by d + 1 - counter
decreasing_by
  simp only [recursionExceeded, decide_eq_true_eq, not_and, not_lt] at h
  have hd : (d : Int) ≠ -1 := by omega
  have := h hd
  omega

theorem stripEscape_of_no_delims :
    ∀ (t : List Sym), (∀ s ∈ t, s ≠ Sym.beg ∧ s ≠ Sym.fin) →
      stripEscape t = t := by
  intro t
  induction t with
  | nil => intro _; rfl
  | cons s rest ih =>
    intro h
    have hrest : ∀ x ∈ rest, x ≠ Sym.beg ∧ x ≠ Sym.fin :=
      fun x hx => h x (List.mem_cons_of_mem s hx)
    cases s with
    | beg => exact absurd rfl (h Sym.beg (List.mem_cons_self _ _)).1
    | fin => exact absurd rfl (h Sym.fin (List.mem_cons_self _ _)).2
    | chr c =>
      show Sym.chr c :: stripEscape rest = Sym.chr c :: rest
      rw [ih hrest]
    | esc =>
      cases rest with
      | nil => rfl
      | cons s' rest' =>
        cases s' with
        | beg =>
          exact absurd rfl (h Sym.beg (List.mem_cons_of_mem _ (List.mem_cons_self _ _))).1
        | fin =>
          exact absurd rfl (h Sym.fin (List.mem_cons_of_mem _ (List.mem_cons_self _ _))).2
        | chr c =>
          show Sym.esc :: stripEscape (Sym.chr c :: rest') = _
          rw [ih hrest]
        | esc =>
          show Sym.esc :: stripEscape (Sym.esc :: rest') = _
          rw [ih hrest]

theorem parseModel_of_no_delims (expand : List Sym → Except String (List Sym)) :
    ∀ (t : List Sym), (∀ s ∈ t, s ≠ Sym.beg ∧ s ≠ Sym.fin) →
      parseModel expand t = .ok t := by
  intro t
  induction t with
  | nil => intro _; rfl
  | cons s rest ih =>
    intro h
    have hrest : ∀ x ∈ rest, x ≠ Sym.beg ∧ x ≠ Sym.fin :=
      fun x hx => h x (List.mem_cons_of_mem s hx)
    cases s with
    | beg => exact absurd rfl (h Sym.beg (List.mem_cons_self _ _)).1
    | fin => exact absurd rfl (h Sym.fin (List.mem_cons_self _ _)).2
    | chr c =>
      show (parseModel expand rest).map (Sym.chr c :: ·) = _
      rw [ih hrest]
      rfl
    | esc =>
      cases rest with
      | nil => rfl
      | cons s' rest' =>
        cases s' with
        | beg =>
          exact absurd rfl (h Sym.beg (List.mem_cons_of_mem _ (List.mem_cons_self _ _))).1
        | fin =>
          exact absurd rfl (h Sym.fin (List.mem_cons_of_mem _ (List.mem_cons_self _ _))).2
        | chr c =>
          show (parseModel expand (Sym.chr c :: rest')).map (Sym.esc :: ·) = _
          rw [ih hrest]
          rfl
        | esc =>
          show (parseModel expand (Sym.esc :: rest')).map (Sym.esc :: ·) = _
          rw [ih hrest]
          rfl

theorem blck_if_loop_true (cond : String → Bool) (parse : String → String)
    (body : String) (rest : List (IfBoundary × String)) :
    blck_if_loop cond parse true body rest = parse body := by
  rw [blck_if_loop.eq_def]
  simp

theorem blck_if_loop_nil (cond : String → Bool) (parse : String → String)
    (body : String) :
    blck_if_loop cond parse false body [] = "" := by
  rw [blck_if_loop.eq_def]
  simp

theorem blck_if_loop_else (cond : String → Bool) (parse : String → String)
    (body b : String) (tl : List (IfBoundary × String)) :
    blck_if_loop cond parse false body ((IfBoundary.isElse, b) :: tl) =
      blck_if_loop cond parse true b tl := by
  rw [blck_if_loop.eq_def]
  simp

theorem blck_if_loop_elif (cond : String → Bool) (parse : String → String)
    (body a b : String) (tl : List (IfBoundary × String)) :
    blck_if_loop cond parse false body ((IfBoundary.isElif a, b) :: tl) =
      blck_if_loop cond parse (cond (parse a)) b tl := by
  rw [blck_if_loop.eq_def]
  simp

theorem firstTrueBranch_true (cond : String → Bool) (parse : String → String)
    (body : String) (rest : List (IfBoundary × String)) :
    firstTrueBranch cond parse true body rest = some body := by
  rw [firstTrueBranch.eq_def]
  simp

theorem firstTrueBranch_nil (cond : String → Bool) (parse : String → String)
    (body : String) :
    firstTrueBranch cond parse false body [] = none := by
  rw [firstTrueBranch.eq_def]
  simp

theorem firstTrueBranch_else (cond : String → Bool) (parse : String → String)
    (body b : String) (tl : List (IfBoundary × String)) :
    firstTrueBranch cond parse false body ((IfBoundary.isElse, b) :: tl) =
      some b := by
  rw [firstTrueBranch.eq_def]
  simp

theorem firstTrueBranch_elif (cond : String → Bool) (parse : String → String)
    (body a b : String) (tl : List (IfBoundary × String)) :
    firstTrueBranch cond parse false body ((IfBoundary.isElif a, b) :: tl) =
      firstTrueBranch cond parse (cond (parse a)) b tl := by
  rw [firstTrueBranch.eq_def]
  simp

theorem blck_if_loop_eq (cond : String → Bool) (parse : String → String) :
    ∀ (rest : List (IfBoundary × String)) (value : Bool) (body : String),
      blck_if_loop cond parse value body rest =
        (firstTrueBranch cond parse value body rest).elim "" parse := by
  intro rest
  induction rest with
  | nil =>
    intro value body
    cases value with
    | true =>
      rw [blck_if_loop_true, firstTrueBranch_true]
      rfl
    | false =>
      rw [blck_if_loop_nil, firstTrueBranch_nil]
      rfl
  | cons hd tl ih =>
    intro value body
    obtain ⟨bd, b⟩ := hd
    cases value with
    | true =>
      rw [blck_if_loop_true, firstTrueBranch_true]
      rfl
    | false =>
      cases bd with
      | isElse =>
        rw [blck_if_loop_else, firstTrueBranch_else, blck_if_loop_true]
        rfl
      | isElif a =>
        rw [blck_if_loop_elif, firstTrueBranch_elif]
        exact ih _ _

theorem fnl_atlabel_loop_warns
    (replace : Nat → Nat → String → String → String)
    (getLabel : String → List Nat) :
    ∀ (store : AtlabelStore) (s : String),
      (fnl_atlabel_loop replace getLabel store s).2 =
        store.filterMap (fun p =>
          if getLabel p.1 = [] then some (noMatchingLabelMsg p.1)
          else none) := by
  intro store
  induction store with
  | nil => intro s; rfl
  | cons hd tl ih =>
    intro s
    obtain ⟨lbl, content⟩ := hd
    by_cases h : getLabel lbl = []
    · simp [fnl_atlabel_loop, h, ih]
    · have hlen : (getLabel lbl).length ≠ 0 := by
        simpa [List.length_eq_zero] using h
      simp [fnl_atlabel_loop, h, hlen, ih]

theorem fnl_atlabel_loop_string_all_empty
    (replace : Nat → Nat → String → String → String)
    (getLabel : String → List Nat) :
    ∀ (store : AtlabelStore) (s : String),
      (∀ p ∈ store, getLabel p.1 = []) →
      (fnl_atlabel_loop replace getLabel store s).1 = s := by
  intro store
  induction store with
  | nil => intro s _; rfl
  | cons hd tl ih =>
    intro s h
    obtain ⟨lbl, content⟩ := hd
    have hlbl : getLabel lbl = [] := h (lbl, content) (List.mem_cons_self _ _)
    have htl : ∀ p ∈ tl, getLabel p.1 = [] :=
      fun p hp => h p (List.mem_cons_of_mem _ hp)
    simp [fnl_atlabel_loop, hlbl, ih s htl]

theorem blck_for_loop_singleton
    (parse : Commands → String → Commands × String)
    (ident contents v : String) (cs : Commands) :
    blck_for_loop parse ident contents [v] cs =
      parse (dictSet cs ident v) contents := by
  simp [blck_for_loop]

theorem blck_for_loop_append
    (parse : Commands → String → Commands × String)
    (ident contents : String) :
    ∀ (vs1 vs2 : List String) (cs : Commands),
      blck_for_loop parse ident contents (vs1 ++ vs2) cs =
        ((blck_for_loop parse ident contents vs2
            (blck_for_loop parse ident contents vs1 cs).1).1,
         (blck_for_loop parse ident contents vs1 cs).2 ++
           (blck_for_loop parse ident contents vs2
             (blck_for_loop parse ident contents vs1 cs).1).2) := by
  intro vs1
  induction vs1 with
  | nil =>
    intro vs2 cs
    simp [blck_for_loop, String.empty_append]
  | cons v vs ih =>
    intro vs2 cs
    simp only [List.cons_append, blck_for_loop, List.append_eq, ih,
      String.append_assoc]

theorem blck_for_loop_last_value
    (parse : Commands → String → Commands × String)
    (ident contents : String) :
    ∀ (vs : List String) (v : String) (cs : Commands),
      (∀ c s, dictGet ((parse c s).1) ident = dictGet c ident) →
      dictGet (blck_for_loop parse ident contents (vs ++ [v]) cs).1 ident =
        some v := by
  intro vs
  induction vs with
  | nil =>
    intro v cs hpres
    rw [List.nil_append, blck_for_loop_singleton, hpres]
    exact dictGet_dictSet_self cs ident v
  | cons v' vs ih =>
    intro v cs hpres
    rw [List.cons_append]
    show dictGet (blck_for_loop parse ident contents (vs ++ [v]) _).1 ident =
      some v
    exact ih v _ hpres

theorem depthBefore_succ (all : List Tok) (i : Nat) (t : Tok)
    (h : all[i]? = some t) :
    depthBefore all (i + 1) = depthBefore all i + depthDelta t.cls := by
  unfold depthBefore
  rw [List.take_succ, h]
  simp

theorem isZeroBoundary_of_ge (tokens : List Tok) (i : Nat)
    (h : tokens.length ≤ i) : isZeroBoundary tokens i = false := by
  unfold isZeroBoundary
  rw [List.getElem?_eq_none h]
  rfl

theorem drop_succ_of_drop_cons {α : Type} (all : List α) (i : Nat) (t : α)
    (rest : List α) (h : all.drop i = t :: rest) :
    all[i]? = some t ∧ all.drop (i + 1) = rest := by
  constructor
  · have hh := List.getElem?_drop all i 0
    rw [h] at hh
    simpa using hh.symm
  · have hh := List.drop_drop 1 i all
    rw [h] at hh
    simpa using hh.symm

theorem fzbAux_none_char (all : List Tok) :
    ∀ (rest : List Tok) (i : Nat), rest = all.drop i →
      fzbAux all rest i = none →
      ∀ j, i ≤ j → isZeroBoundary all j = false := by
  intro rest
  induction rest with
  | nil =>
    intro i hdrop _ j hij
    have hlen : all.length ≤ i := List.drop_eq_nil_iff.mp hdrop.symm
    exact isZeroBoundary_of_ge all j (le_trans hlen hij)
  | cons t rest' ih =>
    intro i hdrop hnone j hij
    obtain ⟨hget, htail⟩ := drop_succ_of_drop_cons all i t rest' hdrop.symm
    simp only [fzbAux] at hnone
    by_cases hz : isZeroBoundary all i = true
    · rw [if_pos hz] at hnone
      exact absurd hnone (by simp)
    · have hz' : isZeroBoundary all i = false := by simpa using hz
      rw [if_neg hz] at hnone
      rcases Nat.lt_or_ge i j with hlt | hge
      · exact ih (i + 1) htail.symm hnone j hlt
      · rw [le_antisymm hge hij]
        exact hz'

theorem fzbAux_some_char (all : List Tok) :
    ∀ (rest : List Tok) (i k : Nat), rest = all.drop i →
      fzbAux all rest i = some k →
      i ≤ k ∧ isZeroBoundary all k = true ∧
        ∀ j, i ≤ j → j < k → isZeroBoundary all j = false := by
  intro rest
  induction rest with
  | nil =>
    intro i k _ hsome
    exact absurd hsome (by simp [fzbAux])
  | cons t rest' ih =>
    intro i k hdrop hsome
    obtain ⟨hget, htail⟩ := drop_succ_of_drop_cons all i t rest' hdrop.symm
    simp only [fzbAux] at hsome
    by_cases hz : isZeroBoundary all i = true
    · rw [if_pos hz] at hsome
      obtain rfl : i = k := by injection hsome
      exact ⟨le_refl _, hz, fun j h1 h2 => absurd h2 (by omega)⟩
    · have hz' : isZeroBoundary all i = false := by simpa using hz
      rw [if_neg hz] at hsome
      obtain ⟨h1, h2, h3⟩ := ih (i + 1) k htail.symm hsome
      refine ⟨by omega, h2, fun j hij hjk => ?_⟩
      rcases Nat.eq_or_lt_of_le hij with heq | hlt
      · rw [← heq]
        exact hz'
      · exact h3 j hlt hjk

theorem find_aux_eq (all : List Tok) :
    ∀ (rest : List Tok) (i : Nat) (depth : Int),
      rest = all.drop i → depth = depthBefore all i →
      find_elifs_and_else_aux all rest i depth =
        (fzbAux all rest i).elim ElifElseResult.noneFound
          (boundaryResult all) := by
  intro rest
  induction rest with
  | nil => intro i depth _ _; rfl
  | cons t rest' ih =>
    intro i depth hdrop hdepth
    obtain ⟨hget, htail⟩ := drop_succ_of_drop_cons all i t rest' hdrop.symm
    have hsucc := depthBefore_succ all i t hget
    obtain ⟨tb, te, cls⟩ := t
    have hiz : isZeroBoundary all i =
        (TokClass.isBoundary cls && (depthBefore all i == 0)) := by
      unfold isZeroBoundary
      rw [hget]
    cases cls with
    | openIf =>
      have hz : isZeroBoundary all i = false := by rw [hiz, ← hdepth]; rfl
      simp only [find_elifs_and_else_aux, fzbAux]
      rw [hz, if_neg (by simp)]
      exact ih (i + 1) (depth + 1) htail.symm (by rw [hsucc, hdepth]; rfl)
    | openEndif =>
      have hz : isZeroBoundary all i = false := by rw [hiz, ← hdepth]; rfl
      simp only [find_elifs_and_else_aux, fzbAux]
      rw [hz, if_neg (by simp)]
      exact ih (i + 1) (depth - 1) htail.symm
        (by rw [hsucc, hdepth]; rfl)
    | close =>
      have hz : isZeroBoundary all i = false := by rw [hiz, ← hdepth]; rfl
      simp only [find_elifs_and_else_aux, fzbAux]
      rw [hz, if_neg (by simp)]
      exact ih (i + 1) depth htail.symm
        (by rw [hsucc, hdepth]; simp [depthDelta])
    | openOther =>
      have hz : isZeroBoundary all i = false := by rw [hiz, ← hdepth]; rfl
      simp only [find_elifs_and_else_aux, fzbAux]
      rw [hz, if_neg (by simp)]
      exact ih (i + 1) depth htail.symm
        (by rw [hsucc, hdepth]; simp [depthDelta])
    | openElse m =>
      by_cases hdep : depth = 0
      · have hz : isZeroBoundary all i = true := by
          rw [hiz, ← hdepth, hdep]
          rfl
        simp only [find_elifs_and_else_aux, fzbAux]
        rw [if_pos hdep, hz, if_pos rfl]
        show _ = boundaryResult all i
        unfold boundaryResult
        rw [hget]
      · have hz : isZeroBoundary all i = false := by
          rw [hiz, ← hdepth]
          simp only [TokClass.isBoundary, Bool.true_and]
          simpa using hdep
        simp only [find_elifs_and_else_aux, fzbAux]
        rw [if_neg hdep, hz, if_neg (by simp)]
        exact ih (i + 1) depth htail.symm
          (by rw [hsucc, hdepth]; simp [depthDelta])
    | openElif m =>
      by_cases hdep : depth = 0
      · have hz : isZeroBoundary all i = true := by
          rw [hiz, ← hdepth, hdep]
          rfl
        simp only [find_elifs_and_else_aux, fzbAux]
        rw [if_pos hdep, hz, if_pos rfl]
        show _ = boundaryResult all i
        unfold boundaryResult
        rw [hget]
      · have hz : isZeroBoundary all i = false := by
          rw [hiz, ← hdepth]
          simp only [TokClass.isBoundary, Bool.true_and]
          simpa using hdep
        simp only [find_elifs_and_else_aux, fzbAux]
        rw [if_neg hdep, hz, if_neg (by simp)]
        exact ih (i + 1) depth htail.symm
          (by rw [hsucc, hdepth]; simp [depthDelta])

-- ============================================================
-- claim theorems
-- ============================================================

/-- C1: for every configured maximum recursion depth `d ≥ 0`, expanding
a command defined to expand into a directive that invokes itself
terminates (the expansion is a total function) with the fatal error
"maximum recursion depth exceeded"; a configured value of `-1` disables
the depth check; and the CLI (`process_options`) rejects configured
values below `-1`. -/
theorem recursion_guard_bounds_self_expansion :
    (∀ d counter : Nat,
      selfRecParse d counter = .error "maximum recursion depth exceeded") ∧
    (∀ counter : Nat, recursionExceeded (-1) counter = false) ∧
    (∀ r dflt : Int, r < -1 →
      processRecursionDepth (some r) dflt =
        .error "argument --recusion-depth/-r: number must be greater than -1") ∧
    (∀ r dflt : Int, -1 ≤ r →
      processRecursionDepth (some r) dflt = .ok r) := by
  refine ⟨selfRecParse_eq_error, ?_, ?_, ?_⟩
  · intro counter
    simp [recursionExceeded]
  · intro r dflt h
    simp [processRecursionDepth, if_pos h]
  · intro r dflt h
    simp [processRecursionDepth]
    omega

/-- Witness for C1 at concrete inputs: depth 3 aborts the self-invoking
expansion with the recursion error, depth `-1` disables the check at
counter 100, and the CLI rejects `-2`. -/
theorem recursion_guard_bounds_self_expansion_witness :
    selfRecParse 3 0 = .error "maximum recursion depth exceeded" ∧
    recursionExceeded (-1) 100 = false ∧
    ((-2 : Int) < -1 ∧
      processRecursionDepth (some (-2)) 100 =
        .error "argument --recusion-depth/-r: number must be greater than -1") ∧
    ((-1 : Int) ≤ 5 ∧ processRecursionDepth (some 5) 100 = .ok 5) :=
  ⟨recursion_guard_bounds_self_expansion.1 3 0,
   recursion_guard_bounds_self_expansion.2.1 100,
   ⟨by decide, recursion_guard_bounds_self_expansion.2.2.1 (-2) 100 (by decide)⟩,
   ⟨by decide, recursion_guard_bounds_self_expansion.2.2.2 5 100 (by decide)⟩⟩

/-- C3: the `if` block evaluates conditions left to right, each `elif`
argument is first expanded by a nested `parse` before its condition is
evaluated, the body of the first branch whose condition is true is
parsed and returned, and when no condition is true and there is no
`else` branch the result is the empty string (`firstTrueBranch` is the
specification-side statement of exactly this selection; `Option.elim`
maps the no-branch case to `""` and the selected body to its parse). -/
theorem if_block_selects_first_true_branch
    (cond : String → Bool) (parse : String → String) (args body : String)
    (rest : List (IfBoundary × String)) :
    blck_if cond parse args body rest =
      (firstTrueBranch cond parse (cond args) body rest).elim "" parse := by
  unfold blck_if
  exact blck_if_loop_eq cond parse rest (cond args) body

/-- C4: `parse("")` is the empty string, and for every input containing
no occurrence of the begin/end delimiters `parse` returns the text
unchanged — which coincides with its escape-marker stripping, the
stripping being the identity on delimiter-free text. -/
theorem parse_identity_without_delimiters :
    (∀ expand, parseModel expand [] = .ok []) ∧
    (∀ expand (t : List Sym),
      (∀ s ∈ t, s ≠ Sym.beg ∧ s ≠ Sym.fin) →
      parseModel expand t = .ok (stripEscape t) ∧ stripEscape t = t) := by
  refine ⟨fun _ => rfl, fun expand t h => ?_⟩
  have hs := stripEscape_of_no_delims t h
  have hp := parseModel_of_no_delims expand t h
  rw [hs]
  exact ⟨hp, rfl⟩

/-- Witness for C4 at a concrete delimiter-free input (with a stray
escape marker, kept as ordinary text). -/
theorem parse_identity_without_delimiters_witness :
    (∀ s ∈ [Sym.chr 'a', Sym.esc, Sym.chr 'b'],
        s ≠ Sym.beg ∧ s ≠ Sym.fin) ∧
    parseModel (fun _ => .error "") [Sym.chr 'a', Sym.esc, Sym.chr 'b'] =
      .ok (stripEscape [Sym.chr 'a', Sym.esc, Sym.chr 'b']) ∧
    stripEscape [Sym.chr 'a', Sym.esc, Sym.chr 'b'] =
      [Sym.chr 'a', Sym.esc, Sym.chr 'b'] :=
  ⟨by decide,
   (parse_identity_without_delimiters.2 (fun _ => .error "")
      [Sym.chr 'a', Sym.esc, Sym.chr 'b'] (by decide)).1,
   (parse_identity_without_delimiters.2 (fun _ => .error "")
      [Sym.chr 'a', Sym.esc, Sym.chr 'b'] (by decide)).2⟩

/-- C5: the `repeat` block requires a positive integer argument and
fails fatally otherwise (`repeat 0` and `repeat -1` both produce the
fatal usage error); for a positive `n` the body is parsed once and the
result is `n` concatenated copies of that single render, so a `repeat 3`
block over body `"a"` yields `"aaa"`. -/
theorem repeat_positive_arg_single_render :
    ∀ (parse : String → String) (c : String),
      blck_repeat parse "0" c = .error repeatErrMsg ∧
      blck_repeat parse "-1" c = .error repeatErrMsg ∧
      (∀ (args : String) (n : Nat),
        pyIsNumeric (pyStrip args) = true → pyToNat (pyStrip args) = n →
        0 < n →
        blck_repeat parse args c = .ok (pyStrMul (parse c) n)) ∧
      (parse "a" = "a" → blck_repeat parse "3" "a" = .ok "aaa") := by
  intro parse c
  refine ⟨rfl, rfl, ?_, ?_⟩
  · intro args n hnum htn hpos
    unfold blck_repeat
    rw [if_pos hnum, htn, if_neg (by omega)]
  · intro h
    unfold blck_repeat
    rw [if_pos (show pyIsNumeric (pyStrip "3") = true by decide),
      if_neg (show ¬ pyToNat (pyStrip "3") ≤ 0 by decide), h]
    rfl

/-- Witness for C5 at concrete inputs: argument "2" with body "b"
(identity nested parse) renders "bb", and the "aaa" example. -/
theorem repeat_positive_arg_single_render_witness :
    pyIsNumeric (pyStrip "2") = true ∧
    pyToNat (pyStrip "2") = 2 ∧ 0 < 2 ∧
    blck_repeat id "2" "b" = .ok (pyStrMul (id "b") 2) ∧
    (id "a" = "a") ∧ blck_repeat id "3" "a" = .ok "aaa" :=
  ⟨by decide, by decide, by decide,
   (repeat_positive_arg_single_render id "b").2.2.1 "2" 2 (by decide)
     (by decide) (by decide),
   rfl,
   (repeat_positive_arg_single_render id "a").2.2.2 rfl⟩

/-- C7: a first `atlabel` block for a fresh label renders its body at
the block site, stores the rendered content under the label and returns
empty text; a second `atlabel` block with the same label in the same run
is a fatal error. -/
theorem atlabel_unique_label_invariant :
    ∀ (parse : String → String) (store : AtlabelStore)
      (args contents contents2 : String),
      (pyStrip args ≠ "" → dictGet store (pyStrip args) = none →
        blck_atlabel parse store args contents =
          .ok (dictSet store (pyStrip args) (parse contents), "") ∧
        dictGet (dictSet store (pyStrip args) (parse contents))
            (pyStrip args) =
          some (parse contents)) ∧
      (pyStrip args ≠ "" → (dictGet store (pyStrip args)).isSome = true →
        blck_atlabel parse store args contents =
          .error ("Multiple atlabel blocks with same label \"" ++
            pyStrip args ++ "\"")) ∧
      (pyStrip args ≠ "" → dictGet store (pyStrip args) = none →
        blck_atlabel parse (dictSet store (pyStrip args) (parse contents))
            args contents2 =
          .error ("Multiple atlabel blocks with same label \"" ++
            pyStrip args ++ "\"")) := by
  intro parse store args contents contents2
  refine ⟨fun hne hnone => ?_, fun hne hsome => ?_, fun hne hnone => ?_⟩
  · constructor
    · unfold blck_atlabel
      rw [if_neg hne, if_neg (by rw [hnone]; simp)]
    · exact dictGet_dictSet_self store (pyStrip args) (parse contents)
  · unfold blck_atlabel
    rw [if_neg hne, if_pos hsome]
  · unfold blck_atlabel
    rw [if_neg hne,
      if_pos (by rw [dictGet_dictSet_self]; simp)]

/-- Witness for C7 at concrete inputs: label "lbl" over the empty store
succeeds and stores the rendered body; declaring it again is the fatal
duplicate-label error. -/
theorem atlabel_unique_label_invariant_witness :
    (pyStrip "lbl" ≠ "" ∧ dictGet ([] : AtlabelStore) "lbl" = none) ∧
    blck_atlabel id [] "lbl" "x" = .ok ([("lbl", "x")], "") ∧
    blck_atlabel id [("lbl", "x")] "lbl" "y" =
      .error "Multiple atlabel blocks with same label \"lbl\"" :=
  ⟨⟨by decide, rfl⟩,
   ((atlabel_unique_label_invariant id [] "lbl" "x" "y").1
     (by decide) rfl).1,
   (atlabel_unique_label_invariant id [] "lbl" "x" "y").2.2
     (by decide) rfl⟩

/-- C9: re-cutting into the same clipboard name overwrites the
previously stored entry with no error or warning: after two `cut` blocks
storing under the same name, the clipboard maps the name to the context
and content of the second cut, and each `cut` block returns empty
text. -/
theorem cut_last_write_wins :
    ∀ (split : String → List String) (parse : String → String) (top : Ctx)
      (pos1 pos2 : Nat) (store : ClipStore) (name args1 args2 c1 c2 : String),
      split args1 = [name] → split args2 = [name] →
      cut_parse_args [name] false none = .ok (false, name) →
      blck_cut split parse top pos1 store args1 c1 =
        .ok (dictSet store name (ctxCopy top pos1 "in pasted block", c1), "") ∧
      blck_cut split parse top pos2
          (dictSet store name (ctxCopy top pos1 "in pasted block", c1))
          args2 c2 =
        .ok (dictSet (dictSet store name (ctxCopy top pos1 "in pasted block", c1))
              name (ctxCopy top pos2 "in pasted block", c2), "") ∧
      dictGet (dictSet (dictSet store name (ctxCopy top pos1 "in pasted block", c1))
            name (ctxCopy top pos2 "in pasted block", c2)) name =
        some (ctxCopy top pos2 "in pasted block", c2) := by
  intro split parse top pos1 pos2 store name args1 args2 c1 c2 h1 h2 hargs
  refine ⟨?_, ?_, dictGet_dictSet_self _ _ _⟩
  · unfold blck_cut
    rw [h1, hargs]
    rfl
  · unfold blck_cut
    rw [h2, hargs]
    rfl


/-- Witness for C9 at concrete inputs: two cuts into clipboard "clip";
the second stored pair (new context offset, new content) wins. -/
theorem cut_last_write_wins_witness :
    ((fun _ => ["clip"]) "" = ["clip"] ∧
      cut_parse_args ["clip"] false none = .ok (false, "clip")) ∧
    blck_cut (fun _ => ["clip"]) id ⟨"f", 0, "d"⟩ 1 [] "" "one" =
      .ok ([("clip", (ctxCopy ⟨"f", 0, "d"⟩ 1 "in pasted block", "one"))], "") ∧
    blck_cut (fun _ => ["clip"]) id ⟨"f", 0, "d"⟩ 2
        [("clip", (ctxCopy ⟨"f", 0, "d"⟩ 1 "in pasted block", "one"))] "" "two" =
      .ok ([("clip", (ctxCopy ⟨"f", 0, "d"⟩ 2 "in pasted block", "two"))], "") ∧
    dictGet [("clip", (ctxCopy ⟨"f", 0, "d"⟩ 2 "in pasted block", "two"))] "clip" =
      some (ctxCopy ⟨"f", 0, "d"⟩ 2 "in pasted block", "two") := by
  have h := cut_last_write_wins (fun _ => ["clip"]) id ⟨"f", 0, "d"⟩ 1 2 []
    "clip" "" "" "one" "two" rfl rfl rfl
  exact ⟨⟨rfl, rfl⟩, h.1, h.2.1, h.2.2⟩

/-- C10: a `for` block whose iteration source yields no values — for
example `range(0)` — returns the empty string and leaves the command
registry unchanged; in particular a loop identifier not registered
before the block is not registered after it. -/
theorem for_empty_source_frame :
    ∀ (parse : Commands → String → Commands × String)
      (ident contents : String) (cs : Commands),
      blck_for_loop parse ident contents [] cs = (cs, "") ∧
      blck_for_range parse ident contents 0 0 1 cs = (cs, "") ∧
      (dictGet cs ident = none →
        dictGet (blck_for_range parse ident contents 0 0 1 cs).1 ident =
          none) := by
  intro parse ident contents cs
  have hrange : pyRange 0 0 1 = [] := by decide
  have h2 : blck_for_range parse ident contents 0 0 1 cs = (cs, "") := by
    unfold blck_for_range
    rw [hrange]
    rfl
  refine ⟨rfl, h2, fun hnone => ?_⟩
  rw [h2]
  exact hnone

/-- Witness for C10 at concrete inputs: `for i in range(0)` over an
empty registry — empty output, registry still empty, `i` unregistered. -/
theorem for_empty_source_frame_witness :
    blck_for_loop forExampleParse "i" "body" [] [] = ([], "") ∧
    blck_for_range forExampleParse "i" "body" 0 0 1 [] = ([], "") ∧
    (dictGet ([] : Commands) "i" = none ∧
      dictGet (blck_for_range forExampleParse "i" "body" 0 0 1 []).1 "i" =
        none) :=
  ⟨(for_empty_source_frame forExampleParse "i" "body" []).1,
   (for_empty_source_frame forExampleParse "i" "body" []).2.1,
   ⟨rfl, (for_empty_source_frame forExampleParse "i" "body" []).2.2 rfl⟩⟩

/-- C6: the `for` block with a range source re-parses its body once per
iteration value in order, with the loop identifier registered as a
command returning the current value, concatenating the results — a
singleton run is one parse with the variable set, and a split iteration
list concatenates the two runs' outputs in order, threading the registry
— `for x in range(3)` over the body `"{b}x{e},"` yields `"0,1,2,"`; and
when the body's parse does not itself touch the loop variable's registry
entry, the variable stays registered after the loop, returning the last
iteration value. -/
theorem for_range_iterates_in_order :
    (∀ (parse : Commands → String → Commands × String)
        (ident contents v : String) (cs : Commands),
      blck_for_loop parse ident contents [v] cs =
        parse (dictSet cs ident v) contents) ∧
    (∀ (parse : Commands → String → Commands × String)
        (ident contents : String) (vs1 vs2 : List String) (cs : Commands),
      blck_for_loop parse ident contents (vs1 ++ vs2) cs =
        ((blck_for_loop parse ident contents vs2
            (blck_for_loop parse ident contents vs1 cs).1).1,
         (blck_for_loop parse ident contents vs1 cs).2 ++
           (blck_for_loop parse ident contents vs2
             (blck_for_loop parse ident contents vs1 cs).1).2)) ∧
    (∀ (parse : Commands → String → Commands × String)
        (ident contents : String) (vs : List String) (v : String)
        (cs : Commands),
      (∀ c s, dictGet ((parse c s).1) ident = dictGet c ident) →
      dictGet (blck_for_loop parse ident contents (vs ++ [v]) cs).1 ident =
        some v) ∧
    blck_for_range forExampleParse "x" "{b}x{e}," 0 3 1 [] =
      ([("x", "2")], "0,1,2,") := by
  refine ⟨blck_for_loop_singleton, ?_, ?_, ?_⟩
  · intro parse ident contents vs1 vs2 cs
    exact blck_for_loop_append parse ident contents vs1 vs2 cs
  · intro parse ident contents vs v cs hpres
    exact blck_for_loop_last_value parse ident contents vs v cs hpres
  · decide

/-- Witness for C6 at concrete inputs: the example body parse preserves
the registry, so after iterating over `["0", "1"] ++ ["2"]` the loop
variable `x` is still registered and returns `"2"`. -/
theorem for_range_iterates_in_order_witness :
    (∀ c s, dictGet ((forExampleParse c s).1) "x" = dictGet c "x") ∧
    dictGet (blck_for_loop forExampleParse "x" "{b}x{e},"
        (["0", "1"] ++ ["2"]) []).1 "x" = some "2" :=
  ⟨fun _ _ => rfl,
   for_range_iterates_in_order.2.2.1 forExampleParse "x" "{b}x{e},"
     ["0", "1"] "2" [] (fun _ _ => rfl)⟩

/-- C8: during finalization, an `atlabel` entry whose label has zero
recorded occurrences produces exactly one warning (the non-fatal
"no matching label" message — the finalizer has no error outcome at
all), contributes no text to the output, and every entry is removed from
the store, so a second finalization pass has no further effect. -/
theorem atlabel_zero_occurrences_warn_once :
    ∀ (replace : Nat → Nat → String → String → String)
      (getLabel : String → List Nat) (store : AtlabelStore) (s s2 : String),
      (fnl_atlabel replace getLabel store s).1 = [] ∧
      (fnl_atlabel replace getLabel store s).2.2 =
        store.filterMap (fun p =>
          if getLabel p.1 = [] then some (noMatchingLabelMsg p.1)
          else none) ∧
      ((∀ p ∈ store, getLabel p.1 = []) →
        (fnl_atlabel replace getLabel store s).2.1 = s) ∧
      fnl_atlabel replace getLabel (fnl_atlabel replace getLabel store s).1
          s2 = ([], s2, []) := by
  intro replace getLabel store s s2
  refine ⟨rfl, fnl_atlabel_loop_warns replace getLabel store s,
    fun h => fnl_atlabel_loop_string_all_empty replace getLabel store s h,
    rfl⟩

/-- Witness for C8 at concrete inputs: one stored entry whose label has
no occurrences — one warning, output unchanged, store emptied, second
pass inert. -/
theorem atlabel_zero_occurrences_warn_once_witness :
    (fnl_atlabel (fun _ _ str _ => str) (fun _ => []) [("l", "c")] "out").1 =
      [] ∧
    (fnl_atlabel (fun _ _ str _ => str) (fun _ => [])
        [("l", "c")] "out").2.2 = [noMatchingLabelMsg "l"] ∧
    ((∀ p ∈ [("l", "c")], (fun _ => ([] : List Nat)) p.1 = []) ∧
      (fnl_atlabel (fun _ _ str _ => str) (fun _ => [])
        [("l", "c")] "out").2.1 = "out") ∧
    fnl_atlabel (fun _ _ str _ => str) (fun _ => [])
        (fnl_atlabel (fun _ _ str _ => str) (fun _ => [])
          [("l", "c")] "out").1 "next" = ([], "next", []) :=
  ⟨(atlabel_zero_occurrences_warn_once (fun _ _ str _ => str) (fun _ => [])
      [("l", "c")] "out" "next").1,
   (atlabel_zero_occurrences_warn_once (fun _ _ str _ => str) (fun _ => [])
      [("l", "c")] "out" "next").2.1,
   ⟨fun _ _ => rfl,
    (atlabel_zero_occurrences_warn_once (fun _ _ str _ => str) (fun _ => [])
      [("l", "c")] "out" "next").2.2.1 (fun _ _ => rfl)⟩,
   (atlabel_zero_occurrences_warn_once (fun _ _ str _ => str) (fun _ => [])
      [("l", "c")] "out" "next").2.2.2⟩

/-- C2: `find_elifs_and_else` tracks nesting depth across every `if`
open token and `endif` token, and the boundary it returns is exactly the
first `elif`/`else` open token occurring at nesting depth zero — an
`elif` or `else` belonging to an `if` opened inside the current branch
(depth > 0) is never selected, and when a depth-zero boundary exists no
earlier token is a depth-zero boundary. -/
theorem find_elifs_selects_first_depth_zero_boundary (tokens : List Tok) :
    find_elifs_and_else tokens =
      (firstZeroBoundaryFrom tokens 0).elim ElifElseResult.noneFound
        (boundaryResult tokens) ∧
    (∀ i, firstZeroBoundaryFrom tokens 0 = some i →
      isZeroBoundary tokens i = true ∧
      ∀ j, j < i → isZeroBoundary tokens j = false) ∧
    (firstZeroBoundaryFrom tokens 0 = none →
      ∀ j, isZeroBoundary tokens j = false) := by
  have hdrop : tokens = tokens.drop 0 := (List.drop_zero tokens).symm
  refine ⟨?_, ?_, ?_⟩
  · have h := find_aux_eq tokens tokens 0 0 hdrop rfl
    unfold find_elifs_and_else firstZeroBoundaryFrom
    rw [← hdrop]
    exact h
  · intro i hsome
    unfold firstZeroBoundaryFrom at hsome
    rw [← hdrop] at hsome
    obtain ⟨_, h2, h3⟩ := fzbAux_some_char tokens tokens 0 i hdrop hsome
    exact ⟨h2, fun j hj => h3 j (Nat.zero_le j) hj⟩
  · intro hnone j
    unfold firstZeroBoundaryFrom at hnone
    rw [← hdrop] at hnone
    exact fzbAux_none_char tokens tokens 0 hdrop hnone j (Nat.zero_le j)

/-- Witness for C2 at a concrete token list: an `if` open token, an
`elif` nested inside it (depth 1, skipped), its `endif`, then an `else`
at depth zero — the selected boundary is the depth-zero `else` at index
3, not the nested `elif` at index 1. -/
theorem find_elifs_selects_first_depth_zero_boundary_witness :
    firstZeroBoundaryFrom
        [⟨0, 2, TokClass.openIf⟩, ⟨10, 12, TokClass.openElif 5⟩,
         ⟨20, 22, TokClass.openEndif⟩, ⟨30, 32, TokClass.openElse 5⟩] 0 =
      some 3 ∧
    isZeroBoundary
        [⟨0, 2, TokClass.openIf⟩, ⟨10, 12, TokClass.openElif 5⟩,
         ⟨20, 22, TokClass.openEndif⟩, ⟨30, 32, TokClass.openElse 5⟩] 3 =
      true ∧
    (∀ j, j < 3 → isZeroBoundary
        [⟨0, 2, TokClass.openIf⟩, ⟨10, 12, TokClass.openElif 5⟩,
         ⟨20, 22, TokClass.openEndif⟩, ⟨30, 32, TokClass.openElse 5⟩] j =
      false) ∧
    find_elifs_and_else
        [⟨0, 2, TokClass.openIf⟩, ⟨10, 12, TokClass.openElif 5⟩,
         ⟨20, 22, TokClass.openEndif⟩, ⟨30, 32, TokClass.openElse 5⟩] =
      ElifElseResult.foundElse 30 37 := by
  have h := find_elifs_selects_first_depth_zero_boundary
    [⟨0, 2, TokClass.openIf⟩, ⟨10, 12, TokClass.openElif 5⟩,
     ⟨20, 22, TokClass.openEndif⟩, ⟨30, 32, TokClass.openElse 5⟩]
  refine ⟨rfl, (h.2.1 3 rfl).1, (h.2.1 3 rfl).2, ?_⟩
  rw [h.1]
  rfl

end Preproc
